import Mathlib

/-!
Shallow embedding of the cppdmeta event systems from this repository:

* `Runtime.event_system` embeds `src/_code/cppdmeta/runtime.cpp` — the
  dynamically-verified registry built on `std::unordered_map<std::string,
  std::vector<Callback>>`, whose `on` and `trigger` `assert` that the event
  is known and abort otherwise.
* `Hana.event_system` embeds `src/_code/cppdmeta/hana.cpp` — the
  statically-verified registry built on a `hana::map` keyed by compile-time
  strings, whose `on` and `trigger` carry a `static_assert` (a failure means
  the program is never produced), plus a runtime-string `trigger` overload
  that goes through the secondary index `dynamic_` into the same storage.

Callbacks (`std::function<void()>`) are opaque: we model one by an
identifier, and "invoking" it by emitting that identifier into an
invocation log.  An `unordered_map` is modelled as an association list with
unique keys; `find` is `findVal`, in-place mutation of a mapped `vector` is
`updateVal`, and `insert` (which is a no-op when the key already exists) is
`insertFresh`.
-/

/-- A callback `std::function<void()>` is opaque to the registry; we track its
identity only.  Invoking it appends its identifier to an invocation log. -/
abbrev Callback := Nat

/-- `m.find(x)` on a string-keyed map modelled as an association list. -/
def findVal {β : Type} : List (String × β) → String → Option β
  | [], _ => none
  | (k, v) :: m, x => if k = x then some v else findVal m x

/-- Mutating the mapped value of key `x` in place (e.g. `push_back` onto
`map_[x]`): replaces the value of the entry for `x`, if present. -/
def updateVal {β : Type} : List (String × β) → String → β → List (String × β)
  | [], _, _ => []
  | (k, v) :: m, x, w => if k = x then (k, w) :: m else (k, v) :: updateVal m x w

/-- `m.insert({x, f x})` on `std::unordered_map`: inserts only when the key is
absent; a later duplicate insertion is a no-op (no overwrite, no error). -/
def insertFresh {β : Type} (f : String → β) (m : List (String × β)) (x : String) :
    List (String × β) :=
  match findVal m x with
  | some _ => m
  | none => m ++ [(x, f x)]

/-- Result of executing a dynamically-checked operation: either the `assert`
fired and the process aborted (recording which callbacks the operation had
invoked before aborting), or the operation completed normally, with the
callbacks it invoked, in order. -/
inductive Outcome (α : Type) where
  | aborted (invoked : List Callback)
  | normal (a : α) (invoked : List Callback)
deriving DecidableEq

/-- Result of a statically-checked operation: `compileError` means the
`static_assert` failed, i.e. the program containing this usage is never
produced; `ok` carries the value.  There is no runtime failure constructor:
once such an operation compiles it cannot fail at run time. -/
inductive CompileResult (α : Type) where
  | compileError
  | ok (a : α)
deriving DecidableEq

/-- A client operation against a registry. -/
inductive Op where
  | on (event : String) (callback : Callback)
  | trigger (event : String)
deriving DecidableEq

/-- The event an operation refers to. -/
def Op.event : Op → String
  | .on e _ => e
  | .trigger e => e

/-! ### Association-list map lemmas -/

theorem findVal_append_some {β : Type} {m : List (String × β)}
    (m' : List (String × β)) {x : String} {v : β} (h : findVal m x = some v) :
    findVal (m ++ m') x = some v := by
  induction m with
  | nil => simp [findVal] at h
  | cons p m ih =>
    obtain ⟨k, w⟩ := p
    by_cases hk : k = x
    · simp_all [findVal]
    · simp only [findVal, if_neg hk] at h ⊢
      exact ih h

theorem findVal_append_none {β : Type} {m : List (String × β)}
    (m' : List (String × β)) {x : String} (h : findVal m x = none) :
    findVal (m ++ m') x = findVal m' x := by
  induction m with
  | nil => simp [findVal]
  | cons p m ih =>
    obtain ⟨k, w⟩ := p
    by_cases hk : k = x
    · simp_all [findVal]
    · simp only [findVal, if_neg hk] at h ⊢
      exact ih h

theorem findVal_insertFresh {β : Type} (f : String → β) (m : List (String × β))
    (y x : String) :
    findVal (insertFresh f m y) x =
      match findVal m x with
      | some v => some v
      | none => if x = y then some (f y) else none := by
  unfold insertFresh
  cases hy : findVal m y with
  | some v =>
    cases hx : findVal m x with
    | some w => simp [hx]
    | none =>
      by_cases hxy : x = y
      · subst hxy; rw [hx] at hy; cases hy
      · simp [hx, hxy]
  | none =>
    cases hx : findVal m x with
    | some w => simp [findVal_append_some _ hx, hx]
    | none =>
      rw [findVal_append_none _ hx]
      by_cases hxy : x = y
      · subst hxy; simp [findVal]
      · simp [findVal, hxy, Ne.symm hxy]

theorem findVal_foldl_insertFresh {β : Type} (f : String → β) (E : List String)
    (m : List (String × β)) (x : String) :
    findVal (E.foldl (insertFresh f) m) x =
      match findVal m x with
      | some v => some v
      | none => if x ∈ E then some (f x) else none := by
  induction E generalizing m with
  | nil => cases hx : findVal m x <;> simp [hx]
  | cons e E ih =>
    rw [List.foldl_cons, ih, findVal_insertFresh]
    cases hx : findVal m x with
    | some v => simp
    | none =>
      by_cases hxe : x = e
      · subst hxe; simp
      · simp [hxe, List.mem_cons]

theorem findVal_updateVal {β : Type} (m : List (String × β)) (y : String) (w : β)
    (x : String) :
    findVal (updateVal m y w) x =
      if x = y then (findVal m y).map (fun _ => w) else findVal m x := by
  induction m with
  | nil =>
    simp only [updateVal, findVal]
    split <;> simp
  | cons p m ih =>
    obtain ⟨k, v⟩ := p
    by_cases hk : k = y
    · subst hk
      by_cases hx : k = x
      · subst hx; simp [updateVal, findVal]
      · simp [updateVal, findVal, hx, Ne.symm hx]
    · by_cases hx : k = x
      · subst hx
        simp [updateVal, findVal, hk]
      · simp only [updateVal, if_neg hk, findVal, if_neg hx]
        exact ih

theorem keys_updateVal {β : Type} (m : List (String × β)) (y : String) (w : β) :
    (updateVal m y w).map Prod.fst = m.map Prod.fst := by
  induction m with
  | nil => simp [updateVal]
  | cons p m ih =>
    obtain ⟨k, v⟩ := p
    by_cases hk : k = y <;> simp [updateVal, hk, ih]

theorem findVal_eq_none_iff {β : Type} (m : List (String × β)) (x : String) :
    findVal m x = none ↔ x ∉ m.map Prod.fst := by
  induction m with
  | nil => simp [findVal]
  | cons p m ih =>
    obtain ⟨k, v⟩ := p
    by_cases hk : k = x
    · subst hk; simp [findVal]
    · simp [findVal, hk, ih, Ne.symm hk]

theorem findVal_map_const {β : Type} (E : List String) (v0 : β) (x : String) :
    findVal (E.map fun e => (e, v0)) x = if x ∈ E then some v0 else none := by
  induction E with
  | nil => simp [findVal]
  | cons e E ih =>
    by_cases hx : e = x
    · subst hx; simp [findVal]
    · simp [findVal, hx, ih, List.mem_cons, Ne.symm hx]

theorem nodup_keys_insertFresh {β : Type} (f : String → β) (m : List (String × β))
    (y : String) (h : (m.map Prod.fst).Nodup) :
    ((insertFresh f m y).map Prod.fst).Nodup := by
  unfold insertFresh
  cases hy : findVal m y with
  | some v => exact h
  | none =>
    rw [findVal_eq_none_iff] at hy
    rw [List.map_append, List.nodup_append]
    refine ⟨h, by simp, ?_⟩
    intro a ha hb
    simp only [List.map_cons, List.map_nil, List.mem_singleton] at hb
    subst hb
    exact hy ha

theorem nodup_keys_foldl_insertFresh {β : Type} (f : String → β) (E : List String)
    (m : List (String × β)) (h : (m.map Prod.fst).Nodup) :
    (((E.foldl (insertFresh f) m)).map Prod.fst).Nodup := by
  induction E generalizing m with
  | nil => simpa using h
  | cons e E ih =>
    rw [List.foldl_cons]
    exact ih _ (nodup_keys_insertFresh f m e h)

/-! ### The dynamically-verified registry (`runtime.cpp`) -/

namespace Runtime

/-- `struct event_system` of `runtime.cpp`: a
`std::unordered_map<std::string, std::vector<Callback>> map_`. -/
structure event_system where
  map_ : List (String × List Callback)
deriving DecidableEq

/-- The constructor `event_system(std::initializer_list<std::string> events)`
(`runtime.cpp:12-15`): `for (auto const& event : events) map_.insert({event, {}})`.
`unordered_map::insert` does nothing when the key is already present, so the
first occurrence of a duplicate name wins. -/
def construct (events : List String) : event_system :=
  ⟨events.foldl (insertFresh fun _ => ([] : List Callback)) []⟩

/-- `event_system::on` (`runtime.cpp:17-24`): `map_.find(event)`, then
`assert(callbacks != map_.end())` — an unknown event aborts before anything is
invoked or stored — then `callbacks->second.push_back(callback)`. -/
def event_system.on (s : event_system) (event : String) (callback : Callback) :
    Outcome event_system :=
  match findVal s.map_ event with
  | none => .aborted []
  | some callbacks => .normal ⟨updateVal s.map_ event (callbacks ++ [callback])⟩ []

/-- `event_system::trigger` (`runtime.cpp:26-33`): `map_.find(event)`, then
`assert(callbacks != map_.end())` — the assert precedes the loop, so an
unknown event aborts with no callback invoked — then
`for (auto& callback : callbacks->second) callback();`. -/
def event_system.trigger (s : event_system) (event : String) :
    Outcome event_system :=
  match findVal s.map_ event with
  | none => .aborted []
  | some callbacks => .normal s callbacks

/-- One client operation against the dynamic registry. -/
def step (s : event_system) : Op → Outcome event_system
  | .on e c => s.on e c
  | .trigger e => s.trigger e

/-- A straight-line client program against the dynamic registry: runs the
operations in order, accumulating the invocation log; an `assert` failure
aborts the whole run, keeping the callbacks invoked up to that point. -/
def run (s : event_system) : List Op → Outcome event_system
  | [] => .normal s []
  | op :: ops =>
    match step s op with
    | .aborted l => .aborted l
    | .normal s1 l =>
      match run s1 ops with
      | .aborted l2 => .aborted (l ++ l2)
      | .normal s2 l2 => .normal s2 (l ++ l2)

end Runtime

/-! ### The statically-verified registry (`hana.cpp`) -/

namespace Hana

/-- `struct event_system<Events...>` of `hana.cpp`: `keys` records the
compile-time parameter pack `Events...` (each `hana::string` is identified
with its textual form); `map_` is the
`hana::map<hana::pair<Events, std::vector<Callback>>...>`; `dynamic_` is the
`std::unordered_map<std::string, std::vector<Callback>* const>` secondary
index — an entry `(text, k)` models a pointer into the `map_` storage of key
`k`. -/
structure event_system where
  keys : List String
  map_ : List (String × List Callback)
  dynamic_ : List (String × String)
deriving DecidableEq

/-- `make_event_system(events...)` plus the constructor `event_system()`
(`hana.cpp:25-29`): the `hana::map` starts with one empty vector per key of
the pack, and `hana::for_each(hana::keys(map_), ...)` fills `dynamic_` with
`dynamic_.insert({event.c_str(), &map_[event]})` — an `unordered_map::insert`,
so a first occurrence wins. -/
def make_event_system (events : List String) : event_system :=
  { keys := events
    map_ := events.map fun e => (e, ([] : List Callback))
    dynamic_ := events.foldl (insertFresh fun e => e) [] }

/-- `event_system::on` (`hana.cpp:31-38`): `static_assert(hana::contains(map_, e))`
— failure means the program is never built — then `map_[e].push_back(callback)`. -/
def event_system.on (s : event_system) (e : String) (callback : Callback) :
    CompileResult event_system :=
  match findVal s.map_ e with
  | none => .compileError
  | some callbacks => .ok { s with map_ := updateVal s.map_ e (callbacks ++ [callback]) }

/-- The statically-verified `event_system::trigger` (`hana.cpp:40-48`): a
`const` member; `static_assert(hana::contains(map_, e))`, then
`for (auto& callback : map_[e]) callback();`.  It returns the invoked
callbacks in order and cannot touch the registry. -/
def event_system.trigger (s : event_system) (e : String) :
    CompileResult (List Callback) :=
  match findVal s.map_ e with
  | none => .compileError
  | some callbacks => .ok callbacks

/-- The runtime-string `event_system::trigger(std::string const&)` overload
(`hana.cpp:50-57`): `dynamic_.find(event)`, then `assert(callbacks !=
dynamic_.end())` — the assert precedes the loop, so an unknown string aborts
with no callback invoked — then `for (auto& callback : *callbacks->second)
callback();`, i.e. the loop runs over the `map_` storage the stored pointer
refers to. -/
def event_system.triggerDyn (s : event_system) (event : String) : Outcome Unit :=
  match findVal s.dynamic_ event with
  | none => .aborted []
  | some k => .normal () ((findVal s.map_ k).getD [])

/-- A straight-line client program on the statically-verified path: each
operation uses the compile-time-checked `on`/`trigger`, so any use of an
unknown identifier anywhere in the program means the program never builds
(`compileError`); otherwise the run completes with the final registry and the
invocation log. -/
def runStatic (s : event_system) : List Op → CompileResult (event_system × List Callback)
  | [] => .ok (s, [])
  | .on e c :: ops =>
    match s.on e c with
    | .compileError => .compileError
    | .ok s1 =>
      match runStatic s1 ops with
      | .compileError => .compileError
      | .ok (s2, l2) => .ok (s2, l2)
  | .trigger e :: ops =>
    match s.trigger e with
    | .compileError => .compileError
    | .ok l =>
      match runStatic s ops with
      | .compileError => .compileError
      | .ok (s2, l2) => .ok (s2, l ++ l2)

end Hana

/-! ### Derived facts about the embedded operations -/

theorem isSome_findVal_updateVal {β : Type} (m : List (String × β)) (y : String)
    (w : β) (x : String) :
    (findVal (updateVal m y w) x).isSome = (findVal m x).isSome := by
  rw [findVal_updateVal]
  by_cases hx : x = y
  · rw [if_pos hx, hx]
    cases h : findVal m y <;> simp [h]
  · simp [hx]

theorem findVal_isSome_iff {β : Type} (m : List (String × β)) (x : String) :
    (findVal m x).isSome ↔ x ∈ m.map Prod.fst := by
  rw [Option.isSome_iff_ne_none, ne_eq, findVal_eq_none_iff]
  exact not_not

theorem isSome_congr_keys {β1 β2 : Type} {m1 : List (String × β1)}
    {m2 : List (String × β2)} (h : m1.map Prod.fst = m2.map Prod.fst) (x : String) :
    (findVal m1 x).isSome = (findVal m2 x).isSome := by
  have h1 := findVal_isSome_iff m1 x
  have h2 := findVal_isSome_iff m2 x
  rw [h] at h1
  by_cases hx : x ∈ m2.map Prod.fst
  · rw [h1.mpr hx, h2.mpr hx]
  · have e1 : (findVal m1 x).isSome = false :=
      Bool.eq_false_iff.mpr fun hh => hx (h1.mp hh)
    have e2 : (findVal m2 x).isSome = false :=
      Bool.eq_false_iff.mpr fun hh => hx (h2.mp hh)
    rw [e1, e2]

namespace Runtime

theorem findVal_construct (E : List String) (x : String) :
    findVal (construct E).map_ x =
      if x ∈ E then some ([] : List Callback) else none := by
  show findVal (E.foldl (insertFresh fun _ => ([] : List Callback)) []) x = _
  rw [findVal_foldl_insertFresh]
  simp [findVal]

theorem step_on_some {s : event_system} {e : String} {v : List Callback}
    (c : Callback) (h : findVal s.map_ e = some v) :
    step s (Op.on e c) = .normal ⟨updateVal s.map_ e (v ++ [c])⟩ [] := by
  simp [step, event_system.on, h]

theorem step_on_none {s : event_system} {e : String} (c : Callback)
    (h : findVal s.map_ e = none) : step s (Op.on e c) = .aborted [] := by
  simp [step, event_system.on, h]

theorem step_trigger_some {s : event_system} {e : String} {v : List Callback}
    (h : findVal s.map_ e = some v) : step s (Op.trigger e) = .normal s v := by
  simp [step, event_system.trigger, h]

theorem step_trigger_none {s : event_system} {e : String}
    (h : findVal s.map_ e = none) : step s (Op.trigger e) = .aborted [] := by
  simp [step, event_system.trigger, h]

theorem step_keys {s : event_system} {op : Op} {s1 : event_system}
    {l : List Callback} (h : step s op = .normal s1 l) :
    s1.map_.map Prod.fst = s.map_.map Prod.fst := by
  cases op
  next e c =>
    cases hf : findVal s.map_ e with
    | none => rw [step_on_none c hf] at h; cases h
    | some v => rw [step_on_some c hf] at h; cases h; exact keys_updateVal _ _ _
  next e =>
    cases hf : findVal s.map_ e with
    | none => rw [step_trigger_none hf] at h; cases h
    | some v => rw [step_trigger_some hf] at h; cases h; rfl

theorem run_cons_aborted {s : event_system} {op : Op} {l : List Callback}
    (h : step s op = .aborted l) (ops : List Op) :
    run s (op :: ops) = .aborted l := by
  simp [run, h]

theorem run_cons_normal_normal {s : event_system} {op : Op} {s1 : event_system}
    {l : List Callback} {ops : List Op} {s2 : event_system} {m : List Callback}
    (hs : step s op = .normal s1 l) (h1 : run s1 ops = .normal s2 m) :
    run s (op :: ops) = .normal s2 (l ++ m) := by
  simp [run, hs, h1]

theorem run_cons_normal_aborted {s : event_system} {op : Op} {s1 : event_system}
    {l : List Callback} {ops : List Op} {m : List Callback}
    (hs : step s op = .normal s1 l) (h1 : run s1 ops = .aborted m) :
    run s (op :: ops) = .aborted (l ++ m) := by
  simp [run, hs, h1]

theorem run_cons_inv {s : event_system} {op : Op} {ops : List Op}
    {s' : event_system} {log : List Callback}
    (h : run s (op :: ops) = .normal s' log) :
    ∃ s1 l m, step s op = .normal s1 l ∧ run s1 ops = .normal s' m ∧
      log = l ++ m := by
  cases hs : step s op with
  | aborted l => rw [run_cons_aborted hs ops] at h; cases h
  | normal s1 l =>
    cases h1 : run s1 ops with
    | aborted m => rw [run_cons_normal_aborted hs h1] at h; cases h
    | normal s2 m =>
      rw [run_cons_normal_normal hs h1] at h
      cases h
      exact ⟨s1, l, m, rfl, h1, rfl⟩

theorem run_keys (ops : List Op) {s s' : event_system} {log : List Callback}
    (h : run s ops = .normal s' log) :
    s'.map_.map Prod.fst = s.map_.map Prod.fst := by
  induction ops generalizing s log with
  | nil => simp only [run] at h; cases h; rfl
  | cons op ops ih =>
    obtain ⟨s1, l, m, hs, h1, -⟩ := run_cons_inv h
    rw [ih h1, step_keys hs]

theorem run_append_normal {s : event_system} {l1 l2 : List Op}
    {s1 : event_system} {m1 : List Callback} {s2 : event_system}
    {m2 : List Callback} (h1 : run s l1 = .normal s1 m1)
    (h2 : run s1 l2 = .normal s2 m2) :
    run s (l1 ++ l2) = .normal s2 (m1 ++ m2) := by
  induction l1 generalizing s m1 with
  | nil =>
    simp only [run] at h1
    cases h1
    simpa using h2
  | cons op l1 ih =>
    obtain ⟨sa, la, ma, hs, ha, hm⟩ := run_cons_inv h1
    subst hm
    rw [List.cons_append, run_cons_normal_normal hs (ih ha), List.append_assoc]

theorem run_onList (e : String) (cs : List Callback) (s : event_system)
    {v : List Callback} (h : findVal s.map_ e = some v) :
    ∃ s', run s (cs.map (Op.on e)) = .normal s' [] ∧
      ∀ x, findVal s'.map_ x =
        if x = e then some (v ++ cs) else findVal s.map_ x := by
  induction cs generalizing s v with
  | nil =>
    refine ⟨s, rfl, fun x => ?_⟩
    by_cases hx : x = e
    · subst hx; simp [h]
    · simp [hx]
  | cons c cs ih =>
    have h1 : findVal (updateVal s.map_ e (v ++ [c])) e = some (v ++ [c]) := by
      rw [findVal_updateVal]; simp [h]
    obtain ⟨s', hrun, hchar⟩ := ih ⟨updateVal s.map_ e (v ++ [c])⟩ h1
    refine ⟨s', ?_, fun x => ?_⟩
    · rw [List.map_cons, run_cons_normal_normal (step_on_some c h) hrun]
      rfl
    · rw [hchar x]
      by_cases hx : x = e
      · subst hx; simp
      · rw [if_neg hx, if_neg hx, findVal_updateVal, if_neg hx]

end Runtime

namespace Hana

theorem findVal_make (E : List String) (x : String) :
    findVal (make_event_system E).map_ x =
      if x ∈ E then some ([] : List Callback) else none :=
  findVal_map_const E [] x

theorem findVal_make_dynamic (E : List String) (x : String) :
    findVal (make_event_system E).dynamic_ x =
      if x ∈ E then some x else none := by
  show findVal (E.foldl (insertFresh fun e => e) []) x = _
  rw [findVal_foldl_insertFresh]
  simp [findVal]

theorem on_some {s : event_system} {e : String} {v : List Callback}
    (c : Callback) (h : findVal s.map_ e = some v) :
    s.on e c = .ok { s with map_ := updateVal s.map_ e (v ++ [c]) } := by
  simp [event_system.on, h]

theorem on_none {s : event_system} {e : String} (c : Callback)
    (h : findVal s.map_ e = none) : s.on e c = .compileError := by
  simp [event_system.on, h]

theorem trigger_some {s : event_system} {e : String} {v : List Callback}
    (h : findVal s.map_ e = some v) : s.trigger e = .ok v := by
  simp [event_system.trigger, h]

theorem trigger_none {s : event_system} {e : String}
    (h : findVal s.map_ e = none) : s.trigger e = .compileError := by
  simp [event_system.trigger, h]

theorem on_fields {s : event_system} {e : String} {c : Callback}
    {s1 : event_system} (h : s.on e c = .ok s1) :
    s1.keys = s.keys ∧ s1.dynamic_ = s.dynamic_ ∧
      s1.map_.map Prod.fst = s.map_.map Prod.fst := by
  cases hf : findVal s.map_ e with
  | none => rw [on_none c hf] at h; cases h
  | some v => rw [on_some c hf] at h; cases h; exact ⟨rfl, rfl, keys_updateVal _ _ _⟩

theorem runStatic_cons_on_error {s : event_system} {e : String} {c : Callback}
    (hs : s.on e c = .compileError) (ops : List Op) :
    runStatic s (Op.on e c :: ops) = .compileError := by
  simp [runStatic, hs]

theorem runStatic_cons_on_ok {s : event_system} {e : String} {c : Callback}
    {s1 : event_system} (hs : s.on e c = .ok s1) (ops : List Op) :
    runStatic s (Op.on e c :: ops) = runStatic s1 ops := by
  simp only [runStatic, hs]
  cases h1 : runStatic s1 ops with
  | compileError => rfl
  | ok r => obtain ⟨s2, l2⟩ := r; rfl

theorem runStatic_cons_trigger_error {s : event_system} {e : String}
    (hs : s.trigger e = .compileError) (ops : List Op) :
    runStatic s (Op.trigger e :: ops) = .compileError := by
  simp [runStatic, hs]

theorem runStatic_cons_trigger_ok_ok {s : event_system} {e : String}
    {l : List Callback} {ops : List Op} {s2 : event_system} {l2 : List Callback}
    (hs : s.trigger e = .ok l) (h1 : runStatic s ops = .ok (s2, l2)) :
    runStatic s (Op.trigger e :: ops) = .ok (s2, l ++ l2) := by
  simp [runStatic, hs, h1]

theorem runStatic_cons_trigger_ok_error {s : event_system} {e : String}
    {l : List Callback} {ops : List Op} (hs : s.trigger e = .ok l)
    (h1 : runStatic s ops = .compileError) :
    runStatic s (Op.trigger e :: ops) = .compileError := by
  simp [runStatic, hs, h1]

theorem runStatic_cons_on_inv {s : event_system} {e : String} {c : Callback}
    {ops : List Op} {r : event_system × List Callback}
    (h : runStatic s (Op.on e c :: ops) = .ok r) :
    ∃ s1, s.on e c = .ok s1 ∧ runStatic s1 ops = .ok r := by
  cases hs : s.on e c with
  | compileError => rw [runStatic_cons_on_error hs ops] at h; cases h
  | ok s1 => rw [runStatic_cons_on_ok hs ops] at h; exact ⟨s1, rfl, h⟩

theorem runStatic_cons_trigger_inv {s : event_system} {e : String} {ops : List Op}
    {s' : event_system} {log : List Callback}
    (h : runStatic s (Op.trigger e :: ops) = .ok (s', log)) :
    ∃ l l2, s.trigger e = .ok l ∧ runStatic s ops = .ok (s', l2) ∧
      log = l ++ l2 := by
  cases hs : s.trigger e with
  | compileError => rw [runStatic_cons_trigger_error hs ops] at h; cases h
  | ok l =>
    cases h1 : runStatic s ops with
    | compileError => rw [runStatic_cons_trigger_ok_error hs h1] at h; cases h
    | ok r =>
      obtain ⟨s2, l2⟩ := r
      rw [runStatic_cons_trigger_ok_ok hs h1] at h
      cases h
      exact ⟨l, l2, rfl, rfl, rfl⟩

theorem runStatic_fields (ops : List Op) {s s' : event_system}
    {log : List Callback} (h : runStatic s ops = .ok (s', log)) :
    s'.keys = s.keys ∧ s'.dynamic_ = s.dynamic_ ∧
      s'.map_.map Prod.fst = s.map_.map Prod.fst := by
  induction ops generalizing s log with
  | nil => simp only [runStatic] at h; cases h; exact ⟨rfl, rfl, rfl⟩
  | cons op ops ih =>
    cases op
    next e c =>
      obtain ⟨s1, hs, h1⟩ := runStatic_cons_on_inv h
      obtain ⟨hk1, hd1, hm1⟩ := on_fields hs
      obtain ⟨hk, hd, hm⟩ := ih h1
      exact ⟨hk.trans hk1, hd.trans hd1, hm.trans hm1⟩
    next e =>
      obtain ⟨l, l2, hs, h1, -⟩ := runStatic_cons_trigger_inv h
      exact ih h1

theorem on_isSome {s : event_system} {e : String} {c : Callback}
    {s1 : event_system} (h : s.on e c = .ok s1) (x : String) :
    (findVal s1.map_ x).isSome = (findVal s.map_ x).isSome :=
  isSome_congr_keys (on_fields h).2.2 x

theorem runStatic_ok_events (ops : List Op) {s : event_system}
    {r : event_system × List Callback} (h : runStatic s ops = .ok r) :
    ∀ op ∈ ops, (findVal s.map_ op.event).isSome := by
  induction ops generalizing s r with
  | nil => intro op hop; cases hop
  | cons op0 ops ih =>
    intro op hop
    cases op0
    next e c =>
      obtain ⟨s1, hs, h1⟩ := runStatic_cons_on_inv h
      have hsome : (findVal s.map_ e).isSome := by
        cases hf : findVal s.map_ e with
        | none => rw [on_none c hf] at hs; cases hs
        | some v => rfl
      rcases List.mem_cons.mp hop with rfl | hoptail
      · exact hsome
      · rw [← on_isSome hs op.event]
        exact ih h1 op hoptail
    next e =>
      obtain ⟨rs, rl⟩ := r
      obtain ⟨l, l2, hs, h1, -⟩ := runStatic_cons_trigger_inv h
      have hsome : (findVal s.map_ e).isSome := by
        cases hf : findVal s.map_ e with
        | none => rw [trigger_none hf] at hs; cases hs
        | some v => rfl
      rcases List.mem_cons.mp hop with rfl | hoptail
      · exact hsome
      · exact ih h1 op hoptail

end Hana

/-- The two registries simulate each other step by step: started from states
with identical callback storage, a program whose events are all known runs to
completion on both paths and produces the identical invocation sequence. -/
theorem runs_agree (ops : List Op) (R : Runtime.event_system)
    (H : Hana.event_system)
    (hRH : ∀ x, findVal R.map_ x = findVal H.map_ x)
    (hops : ∀ op ∈ ops, (findVal R.map_ op.event).isSome) :
    ∃ sR sH log, Runtime.run R ops = .normal sR log ∧
      Hana.runStatic H ops = .ok (sH, log) ∧
      ∀ x, findVal sR.map_ x = findVal sH.map_ x := by
  induction ops generalizing R H with
  | nil => exact ⟨R, H, [], rfl, rfl, hRH⟩
  | cons op ops ih =>
    have hop0 : (findVal R.map_ op.event).isSome := hops op (List.mem_cons_self op ops)
    cases op
    next e c =>
      obtain ⟨v, hv0⟩ := Option.isSome_iff_exists.mp hop0
      have hv : findVal R.map_ e = some v := hv0
      have hvH : findVal H.map_ e = some v := by rw [← hRH e]; exact hv
      have hRH1 : ∀ x, findVal (updateVal R.map_ e (v ++ [c])) x =
          findVal (updateVal H.map_ e (v ++ [c])) x := by
        intro x
        rw [findVal_updateVal, findVal_updateVal, hRH e, hRH x]
      have hops1 : ∀ op2 ∈ ops,
          (findVal (updateVal R.map_ e (v ++ [c])) op2.event).isSome := by
        intro op2 h2
        rw [isSome_findVal_updateVal]
        exact hops op2 (List.mem_cons_of_mem _ h2)
      obtain ⟨sR, sH, log, hrunR, hrunH, hfin⟩ :=
        ih ⟨updateVal R.map_ e (v ++ [c])⟩ { H with map_ := updateVal H.map_ e (v ++ [c]) }
          hRH1 hops1
      refine ⟨sR, sH, log, ?_, ?_, hfin⟩
      · rw [Runtime.run_cons_normal_normal (Runtime.step_on_some c hv) hrunR]
        rfl
      · rw [Hana.runStatic_cons_on_ok (Hana.on_some c hvH) ops]
        exact hrunH
    next e =>
      obtain ⟨v, hv0⟩ := Option.isSome_iff_exists.mp hop0
      have hv : findVal R.map_ e = some v := hv0
      have hvH : findVal H.map_ e = some v := by rw [← hRH e]; exact hv
      obtain ⟨sR, sH, log, hrunR, hrunH, hfin⟩ :=
        ih R H hRH (fun op2 h2 => hops op2 (List.mem_cons_of_mem _ h2))
      exact ⟨sR, sH, v ++ log,
        Runtime.run_cons_normal_normal (Runtime.step_trigger_some hv) hrunR,
        Hana.runStatic_cons_trigger_ok_ok (Hana.trigger_some hvH) hrunH, hfin⟩

namespace Hana

theorem keys_make (E : List String) :
    (make_event_system E).map_.map Prod.fst = E := by
  show ((E.map fun e => (e, ([] : List Callback))).map Prod.fst) = E
  induction E with
  | nil => rfl
  | cons e E ih => simpa using ih

end Hana

/-! ### The claims -/

/-- Claim C1: for every registry (static or dynamic) built from a distinct
event set `E`, every `e ∈ E` and every sequence of callbacks `cs` registered
by successive `on(e, ci)` calls, `trigger(e)` invokes the callbacks of `cs`
in exactly registration order, exactly once each, synchronously before the
trigger returns: the whole run completes normally and its invocation log is
exactly `cs`. -/
theorem C1_trigger_invokes_in_registration_order (E : List String) (e : String)
    (cs : List Callback) (hd : E.Nodup) (he : e ∈ E) :
    (∃ sR, Runtime.run (Runtime.construct E)
        (cs.map (Op.on e) ++ [Op.trigger e]) = .normal sR cs) ∧
    ∃ sH, Hana.runStatic (Hana.make_event_system E)
        (cs.map (Op.on e) ++ [Op.trigger e]) = .ok (sH, cs) := by
  have h0 : findVal (Runtime.construct E).map_ e = some [] := by
    rw [Runtime.findVal_construct]; simp [he]
  obtain ⟨s1, hrun1, hchar1⟩ := Runtime.run_onList e cs _ h0
  have hcs1 : findVal s1.map_ e = some cs := by rw [hchar1 e]; simp
  have htrig : Runtime.run s1 [Op.trigger e] = .normal s1 (cs ++ []) :=
    Runtime.run_cons_normal_normal (Runtime.step_trigger_some hcs1) rfl
  have hmain : Runtime.run (Runtime.construct E)
      (cs.map (Op.on e) ++ [Op.trigger e]) = .normal s1 cs := by
    have hA := Runtime.run_append_normal hrun1 htrig
    simpa using hA
  refine ⟨⟨s1, hmain⟩, ?_⟩
  have hRH : ∀ x, findVal (Runtime.construct E).map_ x =
      findVal (Hana.make_event_system E).map_ x := by
    intro x; rw [Runtime.findVal_construct, Hana.findVal_make]
  have hops : ∀ op ∈ cs.map (Op.on e) ++ [Op.trigger e],
      (findVal (Runtime.construct E).map_ op.event).isSome := by
    intro op hop
    have hev : op.event = e := by
      rcases List.mem_append.mp hop with h1 | h1
      · obtain ⟨c, -, rfl⟩ := List.mem_map.mp h1; rfl
      · rw [List.mem_singleton] at h1; subst h1; rfl
    rw [hev, Runtime.findVal_construct]
    simp [he]
  obtain ⟨sR, sH, log, hR, hH, -⟩ := runs_agree _ _ _ hRH hops
  rw [hmain] at hR
  cases hR
  exact ⟨sH, hH⟩

/-- Witness for C1 at `E = ["foo","bar","baz"]`, `e = "foo"`, callbacks `[0,1]`. -/
theorem C1_witness :
    (∃ sR, Runtime.run (Runtime.construct ["foo", "bar", "baz"])
        ([0, 1].map (Op.on "foo") ++ [Op.trigger "foo"]) = .normal sR [0, 1]) ∧
    ∃ sH, Hana.runStatic (Hana.make_event_system ["foo", "bar", "baz"])
        ([0, 1].map (Op.on "foo") ++ [Op.trigger "foo"]) = .ok (sH, [0, 1]) :=
  C1_trigger_invokes_in_registration_order ["foo", "bar", "baz"] "foo" [0, 1]
    (by decide) (by decide)

/-- Claim C2: for any registry built from `E` (in any state reachable by a
program that ran normally) and any name `x ∉ E`, every dynamically-verified
path — the dynamic registry's `trigger`, its `on`, and the static registry's
runtime-string `trigger` overload — aborts with the `assert` diagnostic, and
the aborting call invokes no callback at all (its invocation log is empty). -/
theorem C2_unknown_event_aborts (E : List String) (x : String) (c : Callback)
    (hx : x ∉ E) (ops : List Op) (sR : Runtime.event_system)
    (logR : List Callback)
    (hR : Runtime.run (Runtime.construct E) ops = .normal sR logR)
    (sH : Hana.event_system) (logH : List Callback)
    (hH : Hana.runStatic (Hana.make_event_system E) ops = .ok (sH, logH)) :
    sR.trigger x = .aborted [] ∧ sR.on x c = .aborted [] ∧
      sH.triggerDyn x = .aborted [] := by
  have hkR := Runtime.run_keys ops hR
  have hnone : findVal sR.map_ x = none := by
    rw [findVal_eq_none_iff, hkR, ← findVal_eq_none_iff,
      Runtime.findVal_construct]
    simp [hx]
  have hdH := (Hana.runStatic_fields ops hH).2.1
  have hdyn : findVal sH.dynamic_ x = none := by
    rw [hdH, Hana.findVal_make_dynamic]
    simp [hx]
  exact ⟨by simp [Runtime.event_system.trigger, hnone],
    by simp [Runtime.event_system.on, hnone],
    by simp [Hana.event_system.triggerDyn, hdyn]⟩

/-- Witness for C2: the spec's own scenario, `E = {"foo","bar","baz"}` and
`trigger("unknown")` on the freshly built registries. -/
theorem C2_witness :
    (Runtime.construct ["foo", "bar", "baz"]).trigger "unknown" = .aborted [] ∧
    (Runtime.construct ["foo", "bar", "baz"]).on "unknown" 0 = .aborted [] ∧
    (Hana.make_event_system ["foo", "bar", "baz"]).triggerDyn "unknown" =
      .aborted [] :=
  C2_unknown_event_aborts ["foo", "bar", "baz"] "unknown" 0 (by decide) []
    (Runtime.construct ["foo", "bar", "baz"]) [] rfl
    (Hana.make_event_system ["foo", "bar", "baz"]) [] rfl

/-- Claim C3: on the statically-verified path, a program builds (every
`static_assert` passes, so `runStatic` is not `compileError`) exactly when
every `on`/`trigger` it contains names an event of the fixed compile-time set
`E`; any usage outside `E` means the program is never produced, and a program
that does build runs with no unknown-event failure (`CompileResult` has no
runtime-abort outcome at all). -/
theorem C3_static_usage_outside_set_never_builds (E : List String)
    (ops : List Op) :
    (∃ r, Hana.runStatic (Hana.make_event_system E) ops = .ok r) ↔
      ∀ op ∈ ops, op.event ∈ E := by
  constructor
  · rintro ⟨r, h⟩ op hop
    have hmem := (findVal_isSome_iff _ _).mp (Hana.runStatic_ok_events ops h op hop)
    rw [Hana.keys_make] at hmem
    exact hmem
  · intro hops
    have hRH : ∀ y, findVal
        (Runtime.event_system.mk (Hana.make_event_system E).map_).map_ y =
        findVal (Hana.make_event_system E).map_ y := fun y => rfl
    have hops2 : ∀ op ∈ ops, (findVal
        (Runtime.event_system.mk (Hana.make_event_system E).map_).map_
          op.event).isSome := by
      intro op hop
      show (findVal (Hana.make_event_system E).map_ op.event).isSome
      rw [Hana.findVal_make]
      simp [hops op hop]
    obtain ⟨-, sH, log, -, hH, -⟩ := runs_agree ops _ _ hRH hops2
    exact ⟨(sH, log), hH⟩

/-- Claim C4: on the static registry, after any program that builds, the
runtime-string bridge `trigger(std::string)` and the statically-verified
`trigger` observe the identical storage: for every `e` in the fixed set both
paths invoke exactly the same callbacks in the same order. -/
theorem C4_runtime_bridge_reads_same_storage (E : List String) (ops : List Op)
    (e : String) (he : e ∈ E) (sH : Hana.event_system) (log : List Callback)
    (hH : Hana.runStatic (Hana.make_event_system E) ops = .ok (sH, log)) :
    ∃ cs, sH.trigger e = .ok cs ∧ sH.triggerDyn e = .normal () cs := by
  obtain ⟨-, hdyn, hkeys⟩ := Hana.runStatic_fields ops hH
  have hsome : (findVal sH.map_ e).isSome := by
    rw [findVal_isSome_iff, hkeys, Hana.keys_make]
    exact he
  obtain ⟨cs, hcs⟩ := Option.isSome_iff_exists.mp hsome
  have hdynE : findVal sH.dynamic_ e = some e := by
    rw [hdyn, Hana.findVal_make_dynamic]
    simp [he]
  exact ⟨cs, Hana.trigger_some hcs,
    by simp [Hana.event_system.triggerDyn, hdynE, hcs]⟩

/-- Witness for C4 at `E = ["foo"]` after registering callback `0` on `"foo"`. -/
theorem C4_witness :
    ∃ cs, (Hana.event_system.mk ["foo"] [("foo", [0])]
        [("foo", "foo")]).trigger "foo" = .ok cs ∧
      (Hana.event_system.mk ["foo"] [("foo", [0])]
        [("foo", "foo")]).triggerDyn "foo" = .normal () cs :=
  C4_runtime_bridge_reads_same_storage ["foo"] [Op.on "foo" 0] "foo"
    (by decide) _ [] (by decide)

/-- Claim C5: the key set established at construction is an invariant — no
sequence of `on`/`trigger` calls that completes normally changes the key set
of either registry (nor the static registry's secondary index), and `on` only
appends the callback to the list of an existing key, leaving every other
entry unchanged. -/
theorem C5_key_set_fixed_after_construction (ops : List Op)
    (sR sR2 : Runtime.event_system) (logR : List Callback)
    (sH sH2 : Hana.event_system) (logH : List Callback) (e : String)
    (c : Callback) :
    (Runtime.run sR ops = .normal sR2 logR →
      sR2.map_.map Prod.fst = sR.map_.map Prod.fst) ∧
    (Hana.runStatic sH ops = .ok (sH2, logH) →
      sH2.keys = sH.keys ∧ sH2.map_.map Prod.fst = sH.map_.map Prod.fst ∧
        sH2.dynamic_ = sH.dynamic_) ∧
    (∀ sR3 l, sR.on e c = .normal sR3 l →
      ∀ x, findVal sR3.map_ x =
        if x = e then (findVal sR.map_ x).map (· ++ [c])
        else findVal sR.map_ x) ∧
    (∀ sH3, sH.on e c = .ok sH3 →
      ∀ x, findVal sH3.map_ x =
        if x = e then (findVal sH.map_ x).map (· ++ [c])
        else findVal sH.map_ x) := by
  refine ⟨fun h => Runtime.run_keys ops h, fun h => ?_, fun sR3 l h x => ?_,
    fun sH3 h x => ?_⟩
  · obtain ⟨hk, hd, hm⟩ := Hana.runStatic_fields ops h
    exact ⟨hk, hm, hd⟩
  · cases hf : findVal sR.map_ e with
    | none => rw [show sR.on e c = .aborted [] from
        by simp [Runtime.event_system.on, hf]] at h; cases h
    | some v =>
      rw [show sR.on e c = .normal ⟨updateVal sR.map_ e (v ++ [c])⟩ [] from
        by simp [Runtime.event_system.on, hf]] at h
      cases h
      show findVal (updateVal sR.map_ e (v ++ [c])) x = _
      rw [findVal_updateVal]
      by_cases hx : x = e
      · subst hx; simp [hf]
      · simp [hx]
  · cases hf : findVal sH.map_ e with
    | none => rw [Hana.on_none c hf] at h; cases h
    | some v =>
      rw [Hana.on_some c hf] at h
      cases h
      show findVal (updateVal sH.map_ e (v ++ [c])) x = _
      rw [findVal_updateVal]
      by_cases hx : x = e
      · subst hx; simp [hf]
      · simp [hx]

/-- Witness for C5: registering callback `0` on `"foo"` in the one-event
dynamic registry keeps the key set `["foo"]`. -/
theorem C5_witness :
    ({ map_ := [("foo", [0])] } : Runtime.event_system).map_.map Prod.fst =
      (Runtime.construct ["foo"]).map_.map Prod.fst :=
  (C5_key_set_fixed_after_construction [Op.on "foo" 0]
      (Runtime.construct ["foo"]) ⟨[("foo", [0])]⟩ []
      (Hana.make_event_system ["foo"]) (Hana.make_event_system ["foo"]) []
      "foo" 0).1 (by decide)

/-- Claim C6: the two registries are observationally interchangeable on valid
inputs — for every event set `E` and every program of `on`/`trigger`
operations whose events all lie in `E`, both registries complete the program
and produce the identical sequence of callback invocations. -/
theorem C6_registries_observationally_equal (E : List String) (hd : E.Nodup)
    (ops : List Op) (hops : ∀ op ∈ ops, op.event ∈ E) :
    ∃ sR sH log,
      Runtime.run (Runtime.construct E) ops = .normal sR log ∧
      Hana.runStatic (Hana.make_event_system E) ops = .ok (sH, log) := by
  have hRH : ∀ x, findVal (Runtime.construct E).map_ x =
      findVal (Hana.make_event_system E).map_ x := by
    intro x; rw [Runtime.findVal_construct, Hana.findVal_make]
  have hops2 : ∀ op ∈ ops,
      (findVal (Runtime.construct E).map_ op.event).isSome := by
    intro op hop
    rw [Runtime.findVal_construct]
    simp [hops op hop]
  obtain ⟨sR, sH, log, h1, h2, -⟩ := runs_agree ops _ _ hRH hops2
  exact ⟨sR, sH, log, h1, h2⟩

/-- Witness for C6 on `E = ["foo","bar","baz"]` with a register and two
triggers. -/
theorem C6_witness :
    ∃ sR sH log,
      Runtime.run (Runtime.construct ["foo", "bar", "baz"])
        [Op.on "foo" 0, Op.trigger "foo", Op.trigger "bar"] =
          .normal sR log ∧
      Hana.runStatic (Hana.make_event_system ["foo", "bar", "baz"])
        [Op.on "foo" 0, Op.trigger "foo", Op.trigger "bar"] = .ok (sH, log) :=
  C6_registries_observationally_equal ["foo", "bar", "baz"] (by decide)
    [Op.on "foo" 0, Op.trigger "foo", Op.trigger "bar"] (by decide)

/-- Claim C7: for every registry built from a non-empty distinct event set
`E` and every `e ∈ E`, triggering `e` while its callback list is empty is a
no-op: every trigger path completes normally, invokes nothing, and leaves
the registry as it was. -/
theorem C7_trigger_with_no_callbacks_is_noop (E : List String) (e : String)
    (hne : E ≠ []) (hd : E.Nodup) (he : e ∈ E) :
    (Runtime.construct E).trigger e = .normal (Runtime.construct E) [] ∧
    (Hana.make_event_system E).trigger e = .ok [] ∧
    (Hana.make_event_system E).triggerDyn e = .normal () [] := by
  have h1 : findVal (Runtime.construct E).map_ e = some [] := by
    rw [Runtime.findVal_construct]; simp [he]
  have h2 : findVal (Hana.make_event_system E).map_ e = some [] := by
    rw [Hana.findVal_make]; simp [he]
  have h3 : findVal (Hana.make_event_system E).dynamic_ e = some e := by
    rw [Hana.findVal_make_dynamic]; simp [he]
  exact ⟨by simp [Runtime.event_system.trigger, h1], Hana.trigger_some h2,
    by simp [Hana.event_system.triggerDyn, h3, h2]⟩

/-- Witness for C7 at `E = ["foo","bar","baz"]`, `e = "bar"`. -/
theorem C7_witness :
    (Runtime.construct ["foo", "bar", "baz"]).trigger "bar" =
      .normal (Runtime.construct ["foo", "bar", "baz"]) [] ∧
    (Hana.make_event_system ["foo", "bar", "baz"]).trigger "bar" = .ok [] ∧
    (Hana.make_event_system ["foo", "bar", "baz"]).triggerDyn "bar" =
      .normal () [] :=
  C7_trigger_with_no_callbacks_is_noop ["foo", "bar", "baz"] "bar"
    (by decide) (by decide) (by decide)

/-- Claim C8: triggering `e` twice invokes the full callback list of `e`
both times, in the same order each time, and callbacks registered between
the two triggers (`ds`) are invoked only by the later trigger: the log is
`cs` (first trigger) followed by `cs ++ ds` (second trigger).  With `ds = []`
this is the double-trigger idempotence case. -/
theorem C8_trigger_twice_and_late_registration (E : List String) (e : String)
    (he : e ∈ E) (cs ds : List Callback) :
    (∃ sR, Runtime.run (Runtime.construct E)
        (cs.map (Op.on e) ++ [Op.trigger e] ++ ds.map (Op.on e) ++
          [Op.trigger e]) = .normal sR (cs ++ cs ++ ds)) ∧
    ∃ sH, Hana.runStatic (Hana.make_event_system E)
        (cs.map (Op.on e) ++ [Op.trigger e] ++ ds.map (Op.on e) ++
          [Op.trigger e]) = .ok (sH, cs ++ cs ++ ds) := by
  have h0 : findVal (Runtime.construct E).map_ e = some [] := by
    rw [Runtime.findVal_construct]; simp [he]
  obtain ⟨s1, hrun1, hchar1⟩ := Runtime.run_onList e cs _ h0
  have hcs1 : findVal s1.map_ e = some cs := by rw [hchar1 e]; simp
  have htrig1 : Runtime.run s1 [Op.trigger e] = .normal s1 (cs ++ []) :=
    Runtime.run_cons_normal_normal (Runtime.step_trigger_some hcs1) rfl
  obtain ⟨s2, hrun2, hchar2⟩ := Runtime.run_onList e ds s1 hcs1
  have hcs2 : findVal s2.map_ e = some (cs ++ ds) := by rw [hchar2 e]; simp
  have htrig2 : Runtime.run s2 [Op.trigger e] = .normal s2 (cs ++ ds ++ []) :=
    Runtime.run_cons_normal_normal (Runtime.step_trigger_some hcs2) rfl
  have hmain : Runtime.run (Runtime.construct E)
      (cs.map (Op.on e) ++ [Op.trigger e] ++ ds.map (Op.on e) ++
        [Op.trigger e]) = .normal s2 (cs ++ cs ++ ds) := by
    have hA := Runtime.run_append_normal hrun1 htrig1
    have hB := Runtime.run_append_normal hA hrun2
    have hC := Runtime.run_append_normal hB htrig2
    simpa using hC
  refine ⟨⟨s2, hmain⟩, ?_⟩
  have hRH : ∀ x, findVal (Runtime.construct E).map_ x =
      findVal (Hana.make_event_system E).map_ x := by
    intro x; rw [Runtime.findVal_construct, Hana.findVal_make]
  have hops : ∀ op ∈ cs.map (Op.on e) ++ [Op.trigger e] ++
      ds.map (Op.on e) ++ [Op.trigger e],
      (findVal (Runtime.construct E).map_ op.event).isSome := by
    intro op hop
    have hev : op.event = e := by
      simp only [List.append_assoc, List.mem_append, List.mem_map,
        List.mem_singleton] at hop
      rcases hop with ⟨a, -, rfl⟩ | rfl | ⟨a, -, rfl⟩ | rfl <;> rfl
    rw [hev, Runtime.findVal_construct]
    simp [he]
  obtain ⟨sR, sH, log, hR, hH, -⟩ := runs_agree _ _ _ hRH hops
  rw [hmain] at hR
  cases hR
  exact ⟨sH, hH⟩

/-- Witness for C8 at `E = ["foo","bar"]`, `e = "foo"`, first `[0,1]` then
`[2]` registered between the triggers. -/
theorem C8_witness :
    (∃ sR, Runtime.run (Runtime.construct ["foo", "bar"])
        ([0, 1].map (Op.on "foo") ++ [Op.trigger "foo"] ++
          [2].map (Op.on "foo") ++ [Op.trigger "foo"]) =
        .normal sR ([0, 1] ++ [0, 1] ++ [2])) ∧
    ∃ sH, Hana.runStatic (Hana.make_event_system ["foo", "bar"])
        ([0, 1].map (Op.on "foo") ++ [Op.trigger "foo"] ++
          [2].map (Op.on "foo") ++ [Op.trigger "foo"]) =
        .ok (sH, [0, 1] ++ [0, 1] ++ [2]) :=
  C8_trigger_twice_and_late_registration ["foo", "bar"] "foo" (by decide)
    [0, 1] [2]

/-- Claim C9: constructing the dynamic registry from a name list with
duplicates lets the first occurrence win — `unordered_map::insert` of a
later duplicate is a no-op (no overwrite, no error) — so the key set is
exactly the set of distinct input names, without duplicates, each mapped to
the empty callback list. -/
theorem C9_duplicate_construction_first_wins (E : List String)
    (m : List (String × List Callback)) (k : String) (v : List Callback) :
    (∀ x, findVal (Runtime.construct E).map_ x =
      if x ∈ E then some ([] : List Callback) else none) ∧
    ((Runtime.construct E).map_.map Prod.fst).Nodup ∧
    (findVal m k = some v →
      insertFresh (fun _ => ([] : List Callback)) m k = m) := by
  refine ⟨Runtime.findVal_construct E, ?_, fun h => ?_⟩
  · exact nodup_keys_foldl_insertFresh _ E [] (by simp)
  · unfold insertFresh
    rw [h]

/-- Witness for C9: the registry built from `["foo","foo","bar"]` maps
`"foo"` to one empty list, and the duplicate insertion was a no-op. -/
theorem C9_witness :
    insertFresh (fun _ => ([] : List Callback)) [("foo", [])] "foo" =
      [("foo", [])] :=
  (C9_duplicate_construction_first_wins ["foo", "foo", "bar"] [("foo", [])]
    "foo" []).2.2 (by decide)

/-- Claim C10: `trigger` on a known event leaves the registry itself
unchanged — the key set and every callback list are exactly as before the
call (callbacks are opaque to the registry, i.e. they do not reenter it, as
the claim assumes). -/
theorem C10_trigger_leaves_registry_unchanged (sR sR2 : Runtime.event_system)
    (sH sH2 : Hana.event_system) (e : String) (logR logH : List Callback) :
    (Runtime.run sR [Op.trigger e] = .normal sR2 logR → sR2 = sR) ∧
    (Hana.runStatic sH [Op.trigger e] = .ok (sH2, logH) → sH2 = sH) := by
  constructor
  · intro h
    obtain ⟨s1, l, m, hs, h1, -⟩ := Runtime.run_cons_inv h
    cases hf : findVal sR.map_ e with
    | none => rw [Runtime.step_trigger_none hf] at hs; cases hs
    | some v =>
      rw [Runtime.step_trigger_some hf] at hs
      cases hs
      simp only [Runtime.run] at h1
      cases h1
      rfl
  · intro h
    obtain ⟨l, l2, hs, h1, -⟩ := Hana.runStatic_cons_trigger_inv h
    simp only [Hana.runStatic] at h1
    cases h1
    rfl

/-- Witness for C10: triggering `"foo"` on a dynamic registry holding
callback `5` returns the very same registry. -/
theorem C10_witness :
    (⟨[("foo", [5])]⟩ : Runtime.event_system) = ⟨[("foo", [5])]⟩ :=
  (C10_trigger_leaves_registry_unchanged ⟨[("foo", [5])]⟩ ⟨[("foo", [5])]⟩
    (Hana.make_event_system ["foo"]) (Hana.make_event_system ["foo"]) "foo"
    [5] []).1 (by decide)
